import Mathlib

/-!
Verification development for the `mygithubstatus` event-aggregation tool
(`src/main.rs`). The Rust code is shallowly embedded:

* `chrono::DateTime` values are modelled as `Int` (only their total order is
  used by the program);
* `BTreeMap<String, _>` and `HashMap<String, _>` are modelled as association
  lists (`Smap`) with sorted insertion for new keys (`BTreeMap` iterates in
  key order; the `HashMap` field `titles` is only ever used through lookup);
* fallible operations (`Option::unwrap`, `anyhow::bail!`) are modelled with
  `Except String`;
* the paginated network source of `my_events` is modelled as a pure function
  `Nat → List Event` giving the events returned for each page index.
-/

/-- Field mirror of `struct Actor` in `src/main.rs`. -/
structure Actor where
  id : Nat
  login : String
deriving DecidableEq

/-- Field mirror of `struct Review`; `submitted_at` is a timestamp. -/
structure Review where
  pull_request_url : String
  submitted_at : Int
  state : String
deriving DecidableEq

/-- Field mirror of `struct PullRequest`. -/
structure PullRequest where
  url : String
  html_url : String
  title : String
deriving DecidableEq

/-- Field mirror of `struct Comment`. -/
structure Comment where
  url : String
  html_url : String
  issue_url : Option String
deriving DecidableEq

/-- Field mirror of `struct Issue`. -/
structure Issue where
  url : String
  title : String
  html_url : String
deriving DecidableEq

/-- Field mirror of `struct Payload`. -/
structure Payload where
  action : Option String
  review : Option Review
  pull_request : Option PullRequest
  issue : Option Issue
  comment : Option Comment
  git_ref : Option String
deriving DecidableEq

/-- Field mirror of `struct Repo`. -/
structure Repo where
  id : Nat
  name : String
  url : String
deriving DecidableEq

/-- Field mirror of `struct Event`; `created_at` is a timestamp modelled as
`Int` (the program only compares timestamps). -/
structure Event where
  id : String
  typ : String
  actor : Actor
  repo : Repo
  payload : Payload
  created_at : Int
deriving DecidableEq

/-- Association-list model of a string-keyed ordered map (`BTreeMap<String, α>`).
New keys are inserted in sorted position so iteration order matches the
`BTreeMap` iteration order. -/
abbrev Smap (α : Type) : Type := List (String × α)

namespace Smap

/-- Lookup, first matching key. -/
def find? {α : Type} : Smap α → String → Option α
  | [], _ => none
  | p :: rest, k => if k = p.1 then some p.2 else find? rest k

/-- Replace the value at the first occurrence of key `k` (if present). -/
def replaceFirst {α : Type} : Smap α → String → α → Smap α
  | [], _, _ => []
  | p :: rest, k, v => if k = p.1 then (p.1, v) :: rest else p :: replaceFirst rest k v

/-- Insert a (fresh) key at its sorted position. -/
def sortedInsert {α : Type} : Smap α → String → α → Smap α
  | [], k, v => [(k, v)]
  | p :: rest, k, v => if k < p.1 then (k, v) :: p :: rest else p :: sortedInsert rest k v

/-- Model of `map.entry(k).or_default()` followed by a mutation `f`: if `k` is
present apply `f` to its value, otherwise insert `f d` (with `d` the default). -/
def update {α : Type} (m : Smap α) (k : String) (d : α) (f : α → α) : Smap α :=
  match m.find? k with
  | some v => m.replaceFirst k (f v)
  | none => m.sortedInsert k (f d)

/-- Model of `map.entry(k).or_insert(v)` / `or_insert_with`: keep an existing
entry, otherwise insert `v`. -/
def orInsert {α : Type} (m : Smap α) (k : String) (v : α) : Smap α :=
  m.update k v id

/-- Model of `map.remove(k)` (key removal). -/
def erase {α : Type} : Smap α → String → Smap α
  | [], _ => []
  | p :: rest, k => if p.1 = k then erase rest k else p :: erase rest k

/-- Remove from `m` every key present in `o` (the two removal loops of the
dedup pass in `parse_events`). -/
def eraseKeysOf {α β : Type} (m : Smap α) (o : Smap β) : Smap α :=
  o.foldl (fun acc p => acc.erase p.1) m

end Smap

/-- Mirror of `enum ReviewReaction`. -/
inductive ReviewReaction where
  | Approved
  | Other
deriving DecidableEq

/-- Mirror of `struct IssueActivity` (with its `Default`). -/
structure IssueActivity where
  state : Option Bool := none
  commented : Bool := false
deriving DecidableEq

/-- Mirror of `enum PullRequestAction`. -/
inductive PullRequestAction where
  | Opened
deriving DecidableEq

/-- Mirror of `struct RepoEvents` (with its `Default`): per-repository buckets.
`pr_action`, `reviewed` and `issues` are `BTreeMap`s, `titles` is a `HashMap`
that is only ever read through lookup, so all four are modelled as `Smap`. -/
structure RepoEvents where
  pr_action : Smap PullRequestAction := []
  reviewed : Smap ReviewReaction := []
  pushed : Nat := 0
  issues : Smap IssueActivity := []
  titles : Smap String := []
deriving DecidableEq

/-- Mirror of `struct RepoEventParseData` (with `type ParsedRepoEvents`
inlined as `Smap RepoEvents`). -/
structure RepoEventParseData where
  repos : Smap RepoEvents
  before : Nat
  after : Nat
deriving DecidableEq

/-- Model of `r.entry(e.repo.name.clone()).or_default()` followed by mutating
the entry with `f`; called with `f = id` for the event types the `match`
skips (the entry is still created in the source). -/
def withRepo (st : RepoEventParseData) (name : String) (f : RepoEvents → RepoEvents) :
    RepoEventParseData :=
  { st with repos := Smap.update st.repos name {} f }

/-- Body of the `match e.typ.as_str()` dispatch in `parse_events`
(`src/main.rs` lines 192-243), reached after the window checks. A missing
payload field that the source `unwrap()`s is modelled as an error. -/
def classifyEvent (st : RepoEventParseData) (e : Event) : Except String RepoEventParseData :=
  if e.typ = "PushEvent" then
    .ok (withRepo st e.repo.name (fun re => { re with pushed := re.pushed + 1 }))
  else if e.typ = "PullRequestEvent" then
    match e.payload.pull_request with
    | none => .error "PullRequestEvent without payload.pull_request"
    | some pr =>
      match e.payload.action with
      | none => .error "PullRequestEvent without payload.action"
      | some action =>
        if action = "opened" then
          .ok (withRepo st e.repo.name (fun re =>
            { re with
              pr_action := Smap.orInsert re.pr_action pr.html_url PullRequestAction.Opened
              titles := Smap.orInsert re.titles pr.html_url pr.title }))
        else
          .ok (withRepo st e.repo.name (fun re => re))
  else if e.typ = "PullRequestReviewEvent" then
    match e.payload.review with
    | none => .error "PullRequestReviewEvent without payload.review"
    | some review =>
      match e.payload.pull_request with
      | none => .error "PullRequestReviewEvent without payload.pull_request"
      | some pr =>
        .ok (withRepo st e.repo.name (fun re =>
          { re with
            reviewed := Smap.orInsert re.reviewed pr.html_url
              (if review.state = "approved" then ReviewReaction.Approved
               else ReviewReaction.Other)
            titles := Smap.orInsert re.titles pr.html_url pr.title }))
  else if e.typ = "IssueCommentEvent" then
    match e.payload.issue with
    | none => .error "IssueCommentEvent without payload.issue"
    | some issue =>
      .ok (withRepo st e.repo.name (fun re =>
        { re with
          issues := Smap.orInsert re.issues issue.html_url
            { state := none, commented := true }
          titles := Smap.orInsert re.titles issue.html_url issue.title }))
  else
    .ok (withRepo st e.repo.name (fun re => re))

/-- One iteration of the `for e in events` loop of `parse_events`
(`src/main.rs` lines 181-243): the two-sided window checks followed by the
type dispatch. -/
def processEvent (start end_ : Int) (st : RepoEventParseData) (e : Event) :
    Except String RepoEventParseData :=
  if end_ < e.created_at then
    .ok { st with after := st.after + 1 }
  else if e.created_at < start then
    .ok { st with before := st.before + 1 }
  else
    classifyEvent st e

/-- The dedup pass of `parse_events` (`src/main.rs` lines 245-255) for one
repository: URLs in `pr_action` are removed from `issues` and `reviewed`,
then URLs in the pruned `reviewed` are removed from `issues`. -/
def dedupRepo (re : RepoEvents) : RepoEvents :=
  let reviewed' := Smap.eraseKeysOf re.reviewed re.pr_action
  let issues' := Smap.eraseKeysOf (Smap.eraseKeysOf re.issues re.pr_action) reviewed'
  { re with reviewed := reviewed', issues := issues' }

/-- The dedup pass applied to every repository of the parse state. -/
def dedupData (st : RepoEventParseData) : RepoEventParseData :=
  { st with repos := st.repos.map (fun p => (p.1, dedupRepo p.2)) }

/-- Model of `fn parse_events` (`src/main.rs` lines 173-261): fold the event
list through `processEvent`, then apply the dedup pass. -/
def parse_events (events : List Event) (start end_ : Int) :
    Except String RepoEventParseData :=
  (events.foldlM (processEvent start end_) ⟨[], 0, 0⟩).map dedupData

/-- Mirror of `let pagelimit = 5` in `my_events`. -/
def pagelimit : Nat := 5

/-- The per-event filter of the fetch loop in `my_events` (`src/main.rs`
lines 117-128): events of other actors are skipped, and only events with
`created_at` strictly greater than `start` qualify. -/
def qualifies (user : String) (start : Int) (e : Event) : Bool :=
  e.actor.login == user && decide (start < e.created_at)

/-- The `loop` of `my_events` (`src/main.rs` lines 110-136). The source loop
bails out with `Would exceed pagelimit 5` when, on a page that still yielded a
qualifying event, `page > pagelimit` holds; since `page` only grows, the
number of further iterations allowed from page `p` is exactly
`pagelimit + 1 - p`, carried here as the structurally decreasing `budget`
argument (`budget = pagelimit + 1 - page` at every call, so `budget = 0`
exactly when `page > pagelimit`). The returned `Nat` counts the page requests
performed (`page + 1` when stopping at `page`). -/
def my_events_go (pages : Nat → List Event) (user : String) (start : Int) :
    Nat → Nat → List Event → Except String (List Event × Nat)
  | budget, page, r =>
    if ((pages page).filter (qualifies user start)).isEmpty then
      .ok (r ++ (pages page).filter (qualifies user start), page + 1)
    else
      match budget with
      | 0 => .error ("Would exceed pagelimit " ++ toString pagelimit)
      | b + 1 =>
        my_events_go pages user start b (page + 1)
          (r ++ (pages page).filter (qualifies user start))

/-- Model of `fn my_events` (`src/main.rs` lines 105-137), starting at page 0
with an empty accumulator. The network query of each page is modelled by the
pure page source `pages`. -/
def my_events (pages : Nat → List Event) (user : String) (start : Int) :
    Except String (List Event × Nat) :=
  my_events_go pages user start (pagelimit + 1) 0 []

/-- Whitespace trimming (model of `str::trim`), written with structural
list recursion so that it evaluates inside the kernel. -/
def trimWs (s : String) : String :=
  ⟨((s.data.dropWhile Char.isWhitespace).reverse.dropWhile Char.isWhitespace).reverse⟩

/-- Mirror of `fn link`: `[title](url)` with both parts trimmed. -/
def link (l t : String) : String :=
  "[" ++ trimWs t ++ "](" ++ trimWs l ++ ")"

/-- Marker prefix of a reviewed entry in `print_events`. -/
def reactionMarker : ReviewReaction → String
  | ReviewReaction.Approved => "✔"
  | ReviewReaction.Other => "📋"

/-- The lines printed by the body of the per-repository loop of
`print_events` (`src/main.rs` lines 279-317): the repository heading is
printed unconditionally, each section only when its bucket is nonempty. -/
def renderRepo (p : String × RepoEvents) : List String :=
  ["### " ++ link ("https://github.com/" ++ p.1) p.1]
  ++ (if p.2.pr_action.isEmpty then [] else
      "Pull Requests: " ::
        p.2.pr_action.map
          (fun q => "  - 🆕 " ++ link q.1 ((Smap.find? p.2.titles q.1).getD ""))
        ++ [""])
  ++ (if p.2.reviewed.isEmpty then [] else
      "Reviewed: " ::
        p.2.reviewed.map
          (fun q => "  - " ++ reactionMarker q.2 ++ " " ++
            link q.1 ((Smap.find? p.2.titles q.1).getD ""))
        ++ [""])
  ++ (if p.2.issues.isEmpty then [] else
      "Commented: " ::
        p.2.issues.map
          (fun q => "  - 📝 " ++ link q.1 ((Smap.find? p.2.titles q.1).getD ""))
        ++ [""])
  ++ (if p.2.pushed > 0 then ["Pushed " ++ toString p.2.pushed ++ " times", ""] else [])

/-- Model of `fn print_events` (`src/main.rs` lines 277-318) as the list of
lines written to standard output. -/
def print_events (events : RepoEventParseData) : List String :=
  ("<!-- before: " ++ toString events.before ++ " after: " ++ toString events.after ++ " -->")
  :: (events.repos.map renderRepo).flatten

/-- Mirror of `const STARTING_HOUR: u32 = 6`. -/
def STARTING_HOUR : Nat := 6

/-- A `Local` date-time produced by `Date::and_hms`, modelled as a calendar
day number (days since 1970-01-01) plus clock fields. -/
structure DateTime where
  day : Int
  hour : Nat
  minute : Nat
  second : Nat
deriving DecidableEq

/-- Weekday number of a calendar day (0 = Monday, chrono's
`Weekday::Mon`): day 0 = 1970-01-01 was a Thursday, so the weekday of day
`d` is `(d + 3) mod 7`. -/
def weekdayOfDay (d : Int) : Int := (d + 3).emod 7

/-- Model of the window computation in `main` (`src/main.rs` lines 326-332):
`day = today - previous_day`; `span` is 3 when `day` is a Monday and 1
otherwise; `start = (day - span).and_hms(STARTING_HOUR, 0, 0)` and
`end = day.and_hms(STARTING_HOUR, 0, 0)`. -/
def computeWindow (today : Int) (previous_day : Nat) : DateTime × DateTime :=
  let day : Int := today - previous_day
  let span : Int := if weekdayOfDay day = 0 then 3 else 1
  (⟨day - span, STARTING_HOUR, 0, 0⟩, ⟨day, STARTING_HOUR, 0, 0⟩)

/-- The two-sided window test of `parse_events`: neither `t > end` nor
`t < start` (negations of the two exclusion branch conditions). -/
def inWindowB (start end_ : Int) (e : Event) : Bool :=
  !decide (end_ < e.created_at) && !decide (e.created_at < start)

/-- Whether `e` is an in-window opened-pull-request event of repository
`repo` targeting `url` (the events that populate `pr_action`). -/
def isOpenedFor (start end_ : Int) (repo url : String) (e : Event) : Bool :=
  inWindowB start end_ e && decide (e.repo.name = repo) &&
    decide (e.typ = "PullRequestEvent") &&
    (match e.payload.pull_request, e.payload.action with
     | some pr, some action => decide (action = "opened") && decide (pr.html_url = url)
     | _, _ => false)

/-- Whether `e` is an in-window pull-request-review event of repository
`repo` targeting `url` (the events that populate `reviewed`). -/
def isReviewFor (start end_ : Int) (repo url : String) (e : Event) : Bool :=
  inWindowB start end_ e && decide (e.repo.name = repo) &&
    decide (e.typ = "PullRequestReviewEvent") &&
    (match e.payload.review, e.payload.pull_request with
     | some _, some pr => decide (pr.html_url = url)
     | _, _ => false)

/-- Whether `e` is an in-window issue-comment event of repository `repo`
targeting `url` (the events that populate `issues`). -/
def isCommentFor (start end_ : Int) (repo url : String) (e : Event) : Bool :=
  inWindowB start end_ e && decide (e.repo.name = repo) &&
    decide (e.typ = "IssueCommentEvent") &&
    (match e.payload.issue with
     | some issue => decide (issue.html_url = url)
     | none => false)

/-- The review reaction `e` would record for `(repo, url)`: the source maps
`review.state == "approved"` to `Approved` and anything else to `Other`. -/
def refReaction (start end_ : Int) (repo url : String) (e : Event) :
    Option ReviewReaction :=
  match e.payload.review, e.payload.pull_request with
  | some review, some pr =>
    if inWindowB start end_ e && decide (e.repo.name = repo) &&
        decide (e.typ = "PullRequestReviewEvent") && decide (pr.html_url = url) then
      some (if review.state = "approved" then ReviewReaction.Approved
            else ReviewReaction.Other)
    else none
  | _, _ => none

/-- The display title `e` would record for `(repo, url)`: opened pull
requests and reviews record `pull_request.title`, issue comments record
`issue.title`; every other event records nothing. -/
def refTitle (start end_ : Int) (repo url : String) (e : Event) : Option String :=
  if e.typ = "PullRequestEvent" then
    match e.payload.pull_request, e.payload.action with
    | some pr, some action =>
      if inWindowB start end_ e && decide (e.repo.name = repo) &&
          decide (action = "opened") && decide (pr.html_url = url) then
        some pr.title
      else none
    | _, _ => none
  else if e.typ = "PullRequestReviewEvent" then
    match e.payload.review, e.payload.pull_request with
    | some _, some pr =>
      if inWindowB start end_ e && decide (e.repo.name = repo) &&
          decide (pr.html_url = url) then
        some pr.title
      else none
    | _, _ => none
  else if e.typ = "IssueCommentEvent" then
    match e.payload.issue with
    | some issue =>
      if inWindowB start end_ e && decide (e.repo.name = repo) &&
          decide (issue.html_url = url) then
        some issue.title
      else none
    | none => none
  else none

/-- The `RepoEvents` recorded for `repo` (the empty default when `repo` is
absent from the map, which has the same empty buckets). -/
def repoOf (st : RepoEventParseData) (repo : String) : RepoEvents :=
  (Smap.find? st.repos repo).getD {}

/-- Whether `url` is in the `pr_action` bucket of `repo`. -/
def prMem (st : RepoEventParseData) (repo url : String) : Bool :=
  (Smap.find? (repoOf st repo).pr_action url).isSome

/-- The `reviewed` entry recorded for `url` in `repo`. -/
def revVal (st : RepoEventParseData) (repo url : String) : Option ReviewReaction :=
  Smap.find? (repoOf st repo).reviewed url

/-- Whether `url` is in the `issues` bucket of `repo`. -/
def issMem (st : RepoEventParseData) (repo url : String) : Bool :=
  (Smap.find? (repoOf st repo).issues url).isSome

/-- The title recorded for `url` in `repo`. -/
def titleVal (st : RepoEventParseData) (repo url : String) : Option String :=
  Smap.find? (repoOf st repo).titles url


deriving instance DecidableEq for Except

/-- First-biased choice on `Option`, the shape of `or_insert`-style
accumulation: keep the left value when present. -/
def oalt {α : Type} : Option α → Option α → Option α
  | some a, _ => some a
  | none, b => b

/-- The malformed shapes of C2: an event whose declared type implies a payload
field that the source `unwrap()`s, with that field absent. -/
def malformedShape (e : Event) : Prop :=
  (e.typ = "PullRequestEvent"
    ∧ (e.payload.pull_request = none ∨ e.payload.action = none))
  ∨ (e.typ = "PullRequestReviewEvent"
    ∧ (e.payload.review = none ∨ e.payload.pull_request = none))
  ∨ (e.typ = "IssueCommentEvent" ∧ e.payload.issue = none)

def emptyPayload : Payload :=
  ⟨none, none, none, none, none, none⟩

def mkPayload (action : Option String) (review : Option Review)
    (pull_request : Option PullRequest) (issue : Option Issue) : Payload :=
  ⟨action, review, pull_request, issue, none, none⟩

def evOpened : Event :=
  ⟨"1", "PullRequestEvent", ⟨1, "u"⟩, ⟨1, "r", "ru"⟩,
    mkPayload (some "opened") none (some ⟨"au", "hu", "T1"⟩) none, 5⟩

def evReview : Event :=
  ⟨"2", "PullRequestReviewEvent", ⟨1, "u"⟩, ⟨1, "r", "ru"⟩,
    mkPayload none (some ⟨"hu", 4, "approved"⟩) (some ⟨"au", "hu", "T2"⟩) none, 4⟩

def evComment : Event :=
  ⟨"3", "IssueCommentEvent", ⟨1, "u"⟩, ⟨1, "r", "ru"⟩,
    mkPayload none none none (some ⟨"au", "T3", "hu"⟩), 3⟩

def evsW : List Event := [evComment, evReview, evOpened]

def repW : RepoEventParseData := (parse_events evsW 0 10).toOption.getD ⟨[], 0, 0⟩

def evsR : List Event := [evComment, evReview]

def repR : RepoEventParseData := (parse_events evsR 0 10).toOption.getD ⟨[], 0, 0⟩

def badEv : Event :=
  ⟨"4", "PullRequestEvent", ⟨1, "u"⟩, ⟨1, "r", "ru"⟩, emptyPayload, 5⟩

def evFork : Event :=
  ⟨"5", "ForkEvent", ⟨1, "u"⟩, ⟨1, "r", "ru"⟩, emptyPayload, 5⟩

def repF : RepoEventParseData := (parse_events [evFork] 0 10).toOption.getD ⟨[], 0, 0⟩

def evAtStart : Event :=
  ⟨"6", "PushEvent", ⟨1, "u"⟩, ⟨1, "r", "ru"⟩, emptyPayload, 100⟩

def pagesAtStart : Nat → List Event := fun p => if p = 0 then [evAtStart] else []

def evQual : Event :=
  ⟨"7", "PushEvent", ⟨1, "u"⟩, ⟨1, "r", "ru"⟩, emptyPayload, 101⟩

def evQual2 : Event :=
  ⟨"8", "PushEvent", ⟨1, "u"⟩, ⟨1, "r", "ru"⟩, emptyPayload, 102⟩

def evOtherUser : Event :=
  ⟨"9", "PushEvent", ⟨2, "x"⟩, ⟨1, "r", "ru"⟩, emptyPayload, 101⟩

def pagesOne : Nat → List Event := fun p => if p = 0 then [evQual] else []

def pagesEvery : Nat → List Event := fun _ => [evQual]

def pagesThree : Nat → List Event :=
  fun p => if p = 0 then [evQual, evOtherUser] else if p = 1 then [evQual2] else []

def evLate : Event :=
  ⟨"10", "PushEvent", ⟨1, "u"⟩, ⟨1, "r", "ru"⟩, emptyPayload, 20⟩

def evEarly : Event :=
  ⟨"11", "PushEvent", ⟨1, "u"⟩, ⟨1, "r", "ru"⟩, emptyPayload, -5⟩

def evEdge : Event :=
  ⟨"12", "PushEvent", ⟨1, "u"⟩, ⟨1, "r", "ru"⟩, emptyPayload, 0⟩


namespace Smap

theorem find?_nil {α : Type} (k : String) : Smap.find? ([] : Smap α) k = none := rfl

theorem find?_replaceFirst_self {α : Type} (m : Smap α) (k : String) (v : α) :
    Smap.find? (Smap.replaceFirst m k v) k = (Smap.find? m k).map (fun _ => v) := by
  induction m with
  | nil => rfl
  | cons p rest ih =>
    by_cases h : k = p.1
    · simp [replaceFirst, find?, h]
    · simp [replaceFirst, find?, h, ih]

theorem find?_replaceFirst_ne {α : Type} (m : Smap α) (k k' : String) (v : α)
    (h : k' ≠ k) : Smap.find? (Smap.replaceFirst m k v) k' = Smap.find? m k' := by
  induction m with
  | nil => rfl
  | cons p rest ih =>
    by_cases hk : k = p.1
    · subst hk
      simp [replaceFirst, find?, h]
    · by_cases hk' : k' = p.1
      · simp [replaceFirst, find?, hk, hk']
      · simp [replaceFirst, find?, hk, hk', ih]

theorem find?_sortedInsert_self {α : Type} (m : Smap α) (k : String) (v : α)
    (h : Smap.find? m k = none) : Smap.find? (Smap.sortedInsert m k v) k = some v := by
  induction m with
  | nil => simp [sortedInsert, find?]
  | cons p rest ih =>
    by_cases hk : k = p.1
    · simp [find?, hk] at h
    · simp [find?, hk] at h
      by_cases hlt : k < p.1
      · simp [sortedInsert, find?, hlt]
      · simp [sortedInsert, find?, hlt, hk, ih h]

theorem find?_sortedInsert_ne {α : Type} (m : Smap α) (k k' : String) (v : α)
    (h : k' ≠ k) : Smap.find? (Smap.sortedInsert m k v) k' = Smap.find? m k' := by
  induction m with
  | nil => simp [sortedInsert, find?, h]
  | cons p rest ih =>
    by_cases hlt : k < p.1
    · simp [sortedInsert, find?, hlt, h]
    · simp [sortedInsert, find?, hlt, ih]

theorem find?_update_self {α : Type} (m : Smap α) (k : String) (d : α) (f : α → α) :
    Smap.find? (Smap.update m k d f) k = some (f ((Smap.find? m k).getD d)) := by
  unfold update
  cases h : Smap.find? m k with
  | some v => simp [h, find?_replaceFirst_self, h]
  | none => simp [h, find?_sortedInsert_self m k (f d) h]

theorem find?_update_ne {α : Type} (m : Smap α) (k k' : String) (d : α) (f : α → α)
    (h : k' ≠ k) : Smap.find? (Smap.update m k d f) k' = Smap.find? m k' := by
  unfold update
  cases hm : Smap.find? m k with
  | some v => exact find?_replaceFirst_ne m k k' (f v) h
  | none => exact find?_sortedInsert_ne m k k' (f d) h

theorem find?_orInsert_self {α : Type} (m : Smap α) (k : String) (v : α) :
    Smap.find? (Smap.orInsert m k v) k = some ((Smap.find? m k).getD v) := by
  simpa using find?_update_self m k v id

theorem find?_orInsert_ne {α : Type} (m : Smap α) (k k' : String) (v : α)
    (h : k' ≠ k) : Smap.find? (Smap.orInsert m k v) k' = Smap.find? m k' :=
  find?_update_ne m k k' v id h

theorem find?_erase_self {α : Type} (m : Smap α) (k : String) :
    Smap.find? (Smap.erase m k) k = none := by
  induction m with
  | nil => rfl
  | cons p rest ih =>
    by_cases h : p.1 = k
    · simp [erase, h, ih]
    · simp [erase, find?, h, Ne.symm h, ih]

theorem find?_erase_ne {α : Type} (m : Smap α) (k k' : String)
    (h : k' ≠ k) : Smap.find? (Smap.erase m k) k' = Smap.find? m k' := by
  induction m with
  | nil => rfl
  | cons p rest ih =>
    by_cases hp : p.1 = k
    · subst hp
      simp [erase, find?, h, ih]
    · simp [erase, find?, hp, ih]

theorem find?_eraseKeysOf {α β : Type} (o : Smap β) (m : Smap α) (k : String) :
    Smap.find? (Smap.eraseKeysOf m o) k =
      if (Smap.find? o k).isSome then none else Smap.find? m k := by
  induction o generalizing m with
  | nil => simp [eraseKeysOf, find?]
  | cons p rest ih =>
    show Smap.find? (Smap.eraseKeysOf (Smap.erase m p.1) rest) k = _
    by_cases hk : k = p.1
    · subst hk
      rw [ih]
      simp [find?, find?_erase_self]
    · rw [ih, find?_erase_ne m p.1 k hk]
      simp [find?, hk]

theorem find?_mapValues {α β : Type} (m : Smap α) (f : α → β) (k : String) :
    Smap.find? (m.map (fun p => (p.1, f p.2))) k = (Smap.find? m k).map f := by
  induction m with
  | nil => rfl
  | cons p rest ih =>
    by_cases h : k = p.1
    · simp [find?, h]
    · simp [find?, h, ih]

end Smap

theorem oalt_none_left {α : Type} (b : Option α) : oalt none b = b := rfl

theorem oalt_none_right {α : Type} (a : Option α) : oalt a none = a := by
  cases a <;> rfl

theorem oalt_assoc {α : Type} (a b c : Option α) :
    oalt (oalt a b) c = oalt a (oalt b c) := by
  cases a <;> cases b <;> rfl

theorem oalt_isSome {α : Type} (a b : Option α) :
    (oalt a b).isSome = (a.isSome || b.isSome) := by
  cases a <;> cases b <;> rfl

theorem findSome?_cons_oalt {α β : Type} (f : α → Option β) (e : α) (l : List α) :
    List.findSome? f (e :: l) = oalt (f e) (List.findSome? f l) := by
  cases h : f e <;> simp [List.findSome?_cons, h, oalt]

theorem isOpenedFor_of_notWindow {start end_ : Int} {repo url : String} {e : Event}
    (h : inWindowB start end_ e = false) : isOpenedFor start end_ repo url e = false := by
  simp [isOpenedFor, h]

theorem isReviewFor_of_notWindow {start end_ : Int} {repo url : String} {e : Event}
    (h : inWindowB start end_ e = false) : isReviewFor start end_ repo url e = false := by
  simp [isReviewFor, h]

theorem isCommentFor_of_notWindow {start end_ : Int} {repo url : String} {e : Event}
    (h : inWindowB start end_ e = false) : isCommentFor start end_ repo url e = false := by
  simp [isCommentFor, h]

theorem refReaction_of_notWindow {start end_ : Int} {repo url : String} {e : Event}
    (h : inWindowB start end_ e = false) : refReaction start end_ repo url e = none := by
  unfold refReaction
  cases e.payload.review <;> cases e.payload.pull_request <;> simp [h]

theorem refTitle_of_notWindow {start end_ : Int} {repo url : String} {e : Event}
    (h : inWindowB start end_ e = false) : refTitle start end_ repo url e = none := by
  unfold refTitle
  cases e.payload.pull_request <;> cases e.payload.action <;>
    cases e.payload.review <;> cases e.payload.issue <;>
    split_ifs <;> simp [h]

theorem repoOf_withRepo (st : RepoEventParseData) (n : String)
    (f : RepoEvents → RepoEvents) (repo : String) :
    repoOf (withRepo st n f) repo =
      if repo = n then f (repoOf st n) else repoOf st repo := by
  unfold repoOf withRepo
  by_cases h : repo = n
  · subst h
    simp [Smap.find?_update_self]
  · simp [h, Smap.find?_update_ne st.repos n repo {} f h]

theorem oalt_some_right {α : Type} (a : Option α) (v : α) :
    oalt a (some v) = some (a.getD v) := by
  cases a <;> rfl

theorem isOpenedFor_of_typ_ne {start end_ : Int} {repo url : String} {e : Event}
    (h : ¬ e.typ = "PullRequestEvent") : isOpenedFor start end_ repo url e = false := by
  simp [isOpenedFor, h]

theorem isReviewFor_of_typ_ne {start end_ : Int} {repo url : String} {e : Event}
    (h : ¬ e.typ = "PullRequestReviewEvent") : isReviewFor start end_ repo url e = false := by
  simp [isReviewFor, h]

theorem isCommentFor_of_typ_ne {start end_ : Int} {repo url : String} {e : Event}
    (h : ¬ e.typ = "IssueCommentEvent") : isCommentFor start end_ repo url e = false := by
  simp [isCommentFor, h]

theorem refReaction_of_typ_ne {start end_ : Int} {repo url : String} {e : Event}
    (h : ¬ e.typ = "PullRequestReviewEvent") : refReaction start end_ repo url e = none := by
  unfold refReaction
  cases e.payload.review <;> cases e.payload.pull_request <;> simp [h]

theorem refTitle_of_typ_out {start end_ : Int} {repo url : String} {e : Event}
    (hpr : ¬ e.typ = "PullRequestEvent") (hrv : ¬ e.typ = "PullRequestReviewEvent")
    (hic : ¬ e.typ = "IssueCommentEvent") : refTitle start end_ repo url e = none := by
  simp [refTitle, hpr, hrv, hic]

theorem processEvent_lookup (start end_ : Int) (st st' : RepoEventParseData) (e : Event)
    (h : processEvent start end_ st e = .ok st') (repo url : String) :
    prMem st' repo url = (prMem st repo url || isOpenedFor start end_ repo url e)
    ∧ revVal st' repo url = oalt (revVal st repo url) (refReaction start end_ repo url e)
    ∧ issMem st' repo url = (issMem st repo url || isCommentFor start end_ repo url e)
    ∧ titleVal st' repo url = oalt (titleVal st repo url) (refTitle start end_ repo url e) := by
  unfold processEvent at h
  split_ifs at h with h1 h2
  · injection h with h
    subst h
    have hw : inWindowB start end_ e = false := by simp [inWindowB, h1]
    refine ⟨?_, ?_, ?_, ?_⟩ <;>
      simp [prMem, revVal, issMem, titleVal, repoOf,
        isOpenedFor_of_notWindow hw, isCommentFor_of_notWindow hw,
        refReaction_of_notWindow hw, refTitle_of_notWindow hw, oalt_none_right]
  · injection h with h
    subst h
    have hw : inWindowB start end_ e = false := by simp [inWindowB, h2]
    refine ⟨?_, ?_, ?_, ?_⟩ <;>
      simp [prMem, revVal, issMem, titleVal, repoOf,
        isOpenedFor_of_notWindow hw, isCommentFor_of_notWindow hw,
        refReaction_of_notWindow hw, refTitle_of_notWindow hw, oalt_none_right]
  · have hw : inWindowB start end_ e = true := by simp [inWindowB, h1, h2]
    unfold classifyEvent at h
    by_cases ht1 : e.typ = "PushEvent"
    · rw [if_pos ht1] at h
      injection h with h
      subst h
      have e1 := @isOpenedFor_of_typ_ne start end_ repo url e (by simp [ht1])
      have e2 := @refReaction_of_typ_ne start end_ repo url e (by simp [ht1])
      have e3 := @isCommentFor_of_typ_ne start end_ repo url e (by simp [ht1])
      have e4 := @refTitle_of_typ_out start end_ repo url e (by simp [ht1]) (by simp [ht1]) (by simp [ht1])
      by_cases hrn : repo = e.repo.name
      · subst hrn
        simp [prMem, revVal, issMem, titleVal, repoOf_withRepo,
          e1, e2, e3, e4, oalt_none_right]
      · simp [prMem, revVal, issMem, titleVal, repoOf_withRepo, hrn,
          e1, e2, e3, e4, oalt_none_right]
    · rw [if_neg ht1] at h
      by_cases ht2 : e.typ = "PullRequestEvent"
      · rw [if_pos ht2] at h
        have e2 := @refReaction_of_typ_ne start end_ repo url e (by simp [ht2])
        have e3 := @isCommentFor_of_typ_ne start end_ repo url e (by simp [ht2])
        have e2b := @isReviewFor_of_typ_ne start end_ repo url e (by simp [ht2])
        cases hpp : e.payload.pull_request with
        | none => rw [hpp] at h; simp at h
        | some pr =>
          rw [hpp] at h
          cases hpa : e.payload.action with
          | none => rw [hpa] at h; simp at h
          | some action =>
            rw [hpa] at h
            simp only [] at h
            by_cases hact : action = "opened"
            · rw [if_pos hact] at h
              injection h with h
              subst h
              by_cases hrn : repo = e.repo.name
              · subst hrn
                by_cases hu : url = pr.html_url
                · subst hu
                  refine ⟨?_, ?_, ?_, ?_⟩ <;>
                    simp [prMem, revVal, issMem, titleVal, repoOf_withRepo,
                      isOpenedFor, refTitle, hw, ht2, hpp, hpa, hact,
                      e2, e3, Smap.find?_orInsert_self, oalt_some_right, oalt_none_right]
                · have hu2 : ¬ pr.html_url = url := fun hh => hu hh.symm
                  refine ⟨?_, ?_, ?_, ?_⟩ <;>
                    simp [prMem, revVal, issMem, titleVal, repoOf_withRepo,
                      isOpenedFor, refTitle, hw, ht2, hpp, hpa, hact, hu, hu2,
                      e2, e3, Smap.find?_orInsert_ne _ pr.html_url url _ hu,
                      oalt_some_right, oalt_none_right]
              · have hrn2 : ¬ e.repo.name = repo := fun hh => hrn hh.symm
                refine ⟨?_, ?_, ?_, ?_⟩ <;>
                  simp [prMem, revVal, issMem, titleVal, repoOf_withRepo,
                    isOpenedFor, refTitle, hw, ht2, hpp, hpa, hact, hrn, hrn2,
                    e2, e3, oalt_some_right, oalt_none_right]
            · rw [if_neg hact] at h
              injection h with h
              subst h
              by_cases hrn : repo = e.repo.name
              · subst hrn
                refine ⟨?_, ?_, ?_, ?_⟩ <;>
                  simp [prMem, revVal, issMem, titleVal, repoOf_withRepo,
                    isOpenedFor, refTitle, hw, ht2, hpp, hpa, hact,
                    e2, e3, oalt_none_right]
              · refine ⟨?_, ?_, ?_, ?_⟩ <;>
                  simp [prMem, revVal, issMem, titleVal, repoOf_withRepo,
                    isOpenedFor, refTitle, hw, ht2, hpp, hpa, hact, hrn,
                    e2, e3, oalt_none_right]
      · rw [if_neg ht2] at h
        by_cases ht3 : e.typ = "PullRequestReviewEvent"
        · rw [if_pos ht3] at h
          have e1 := @isOpenedFor_of_typ_ne start end_ repo url e (by simp [ht3])
          have e3 := @isCommentFor_of_typ_ne start end_ repo url e (by simp [ht3])
          cases hrv : e.payload.review with
          | none => rw [hrv] at h; simp at h
          | some review =>
            rw [hrv] at h
            cases hpp : e.payload.pull_request with
            | none => rw [hpp] at h; simp at h
            | some pr =>
              rw [hpp] at h
              injection h with h
              subst h
              by_cases hrn : repo = e.repo.name
              · subst hrn
                by_cases hu : url = pr.html_url
                · subst hu
                  refine ⟨?_, ?_, ?_, ?_⟩ <;>
                    simp [prMem, revVal, issMem, titleVal, repoOf_withRepo,
                      refReaction, refTitle, hw, ht2, ht3, hrv, hpp, e1, e3,
                      Smap.find?_orInsert_self, oalt_some_right, oalt_none_right]
                · have hu2 : ¬ pr.html_url = url := fun hh => hu hh.symm
                  refine ⟨?_, ?_, ?_, ?_⟩ <;>
                    simp [prMem, revVal, issMem, titleVal, repoOf_withRepo,
                      refReaction, refTitle, hw, ht2, ht3, hrv, hpp, hu, hu2, e1, e3,
                      Smap.find?_orInsert_ne _ pr.html_url url _ hu,
                      oalt_some_right, oalt_none_right]
              · have hrn2 : ¬ e.repo.name = repo := fun hh => hrn hh.symm
                refine ⟨?_, ?_, ?_, ?_⟩ <;>
                  simp [prMem, revVal, issMem, titleVal, repoOf_withRepo,
                    refReaction, refTitle, hw, ht2, ht3, hrv, hpp, hrn, hrn2, e1, e3,
                    oalt_some_right, oalt_none_right]
        · rw [if_neg ht3] at h
          by_cases ht4 : e.typ = "IssueCommentEvent"
          · rw [if_pos ht4] at h
            have e1 := @isOpenedFor_of_typ_ne start end_ repo url e (by simp [ht4])
            have e2 := @refReaction_of_typ_ne start end_ repo url e (by simp [ht4])
            cases hi : e.payload.issue with
            | none => rw [hi] at h; simp at h
            | some issue =>
              rw [hi] at h
              injection h with h
              subst h
              by_cases hrn : repo = e.repo.name
              · subst hrn
                by_cases hu : url = issue.html_url
                · subst hu
                  refine ⟨?_, ?_, ?_, ?_⟩ <;>
                    simp [prMem, revVal, issMem, titleVal, repoOf_withRepo,
                      isCommentFor, refTitle, hw, ht2, ht3, ht4, hi, e1, e2,
                      Smap.find?_orInsert_self, oalt_some_right, oalt_none_right]
                · have hu2 : ¬ issue.html_url = url := fun hh => hu hh.symm
                  refine ⟨?_, ?_, ?_, ?_⟩ <;>
                    simp [prMem, revVal, issMem, titleVal, repoOf_withRepo,
                      isCommentFor, refTitle, hw, ht2, ht3, ht4, hi, hu, hu2, e1, e2,
                      Smap.find?_orInsert_ne _ issue.html_url url _ hu,
                      oalt_some_right, oalt_none_right]
              · have hrn2 : ¬ e.repo.name = repo := fun hh => hrn hh.symm
                refine ⟨?_, ?_, ?_, ?_⟩ <;>
                  simp [prMem, revVal, issMem, titleVal, repoOf_withRepo,
                    isCommentFor, refTitle, hw, ht2, ht3, ht4, hi, hrn, hrn2, e1, e2,
                    oalt_some_right, oalt_none_right]
          · rw [if_neg ht4] at h
            injection h with h
            subst h
            have e1 := @isOpenedFor_of_typ_ne start end_ repo url e ht2
            have e2 := @refReaction_of_typ_ne start end_ repo url e ht3
            have e3 := @isCommentFor_of_typ_ne start end_ repo url e ht4
            have e4 := @refTitle_of_typ_out start end_ repo url e ht2 ht3 ht4
            by_cases hrn : repo = e.repo.name
            · subst hrn
              simp [prMem, revVal, issMem, titleVal, repoOf_withRepo,
                e1, e2, e3, e4, oalt_none_right]
            · simp [prMem, revVal, issMem, titleVal, repoOf_withRepo, hrn,
                e1, e2, e3, e4, oalt_none_right]

theorem foldlM_lookup (start end_ : Int) (events : List Event)
    (st0 st : RepoEventParseData)
    (h : events.foldlM (processEvent start end_) st0 = .ok st) (repo url : String) :
    prMem st repo url
      = (prMem st0 repo url || events.any (isOpenedFor start end_ repo url))
    ∧ revVal st repo url
      = oalt (revVal st0 repo url) (events.findSome? (refReaction start end_ repo url))
    ∧ issMem st repo url
      = (issMem st0 repo url || events.any (isCommentFor start end_ repo url))
    ∧ titleVal st repo url
      = oalt (titleVal st0 repo url) (events.findSome? (refTitle start end_ repo url)) := by
  induction events generalizing st0 with
  | nil =>
    simp only [List.foldlM_nil] at h
    injection h with h
    subst h
    simp [oalt_none_right]
  | cons e l ih =>
    rw [List.foldlM_cons] at h
    cases hpe : processEvent start end_ st0 e with
    | error msg => rw [hpe] at h; simp [Bind.bind, Except.bind] at h
    | ok st1 =>
      rw [hpe] at h
      have hstep := processEvent_lookup start end_ st0 st1 e hpe repo url
      have hrest := ih st1 h
      refine ⟨?_, ?_, ?_, ?_⟩
      · rw [hrest.1, hstep.1, List.any_cons]
        cases prMem st0 repo url <;>
          cases isOpenedFor start end_ repo url e <;> simp
      · rw [hrest.2.1, hstep.2.1, findSome?_cons_oalt, oalt_assoc]
      · rw [hrest.2.2.1, hstep.2.2.1, List.any_cons]
        cases issMem st0 repo url <;>
          cases isCommentFor start end_ repo url e <;> simp
      · rw [hrest.2.2.2, hstep.2.2.2, findSome?_cons_oalt, oalt_assoc]

theorem repoOf_dedupData (st : RepoEventParseData) (repo : String) :
    repoOf (dedupData st) repo = dedupRepo (repoOf st repo) := by
  unfold repoOf dedupData
  rw [show (({ st with repos := st.repos.map (fun p => (p.1, dedupRepo p.2)) }
      : RepoEventParseData).repos) = st.repos.map (fun p => (p.1, dedupRepo p.2)) from rfl]
  rw [Smap.find?_mapValues]
  cases h : Smap.find? st.repos repo with
  | none => rfl
  | some re => simp

theorem dedupRepo_lookups (re : RepoEvents) (url : String) :
    Smap.find? (dedupRepo re).pr_action url = Smap.find? re.pr_action url
    ∧ Smap.find? (dedupRepo re).reviewed url
      = (if (Smap.find? re.pr_action url).isSome then none
         else Smap.find? re.reviewed url)
    ∧ Smap.find? (dedupRepo re).issues url
      = (if (Smap.find? re.pr_action url).isSome ∨ (Smap.find? re.reviewed url).isSome
         then none else Smap.find? re.issues url)
    ∧ Smap.find? (dedupRepo re).titles url = Smap.find? re.titles url := by
  unfold dedupRepo
  refine ⟨rfl, ?_, ?_, rfl⟩
  · exact Smap.find?_eraseKeysOf re.pr_action re.reviewed url
  · rw [show ({ re with
        reviewed := Smap.eraseKeysOf re.reviewed re.pr_action,
        issues := Smap.eraseKeysOf (Smap.eraseKeysOf re.issues re.pr_action)
          (Smap.eraseKeysOf re.reviewed re.pr_action) } : RepoEvents).issues
      = Smap.eraseKeysOf (Smap.eraseKeysOf re.issues re.pr_action)
          (Smap.eraseKeysOf re.reviewed re.pr_action) from rfl]
    rw [Smap.find?_eraseKeysOf, Smap.find?_eraseKeysOf, Smap.find?_eraseKeysOf]
    by_cases hp : (Smap.find? re.pr_action url).isSome <;>
      by_cases hr : (Smap.find? re.reviewed url).isSome <;>
      simp [hp, hr]

/-- Bucket lookups of a successful `parse_events` run, characterised by the
classification of the input events (in input order for the value-carrying
buckets). -/
theorem parse_events_lookup (events : List Event) (start end_ : Int)
    (rep : RepoEventParseData) (h : parse_events events start end_ = .ok rep)
    (repo url : String) :
    prMem rep repo url = events.any (isOpenedFor start end_ repo url)
    ∧ revVal rep repo url
      = (if events.any (isOpenedFor start end_ repo url) then none
         else events.findSome? (refReaction start end_ repo url))
    ∧ issMem rep repo url
      = (events.any (isCommentFor start end_ repo url)
          && !events.any (isOpenedFor start end_ repo url)
          && !(events.findSome? (refReaction start end_ repo url)).isSome)
    ∧ titleVal rep repo url = events.findSome? (refTitle start end_ repo url) := by
  unfold parse_events at h
  cases hf : events.foldlM (processEvent start end_) ⟨[], 0, 0⟩ with
  | error msg => rw [hf] at h; simp [Except.map] at h
  | ok st =>
    rw [hf] at h
    simp only [Except.map] at h
    injection h with h
    subst h
    have hfold := foldlM_lookup start end_ events ⟨[], 0, 0⟩ st hf repo url
    have h0p : prMem ⟨[], 0, 0⟩ repo url = false := rfl
    have h0r : revVal ⟨[], 0, 0⟩ repo url = none := rfl
    have h0i : issMem ⟨[], 0, 0⟩ repo url = false := rfl
    have h0t : titleVal ⟨[], 0, 0⟩ repo url = none := rfl
    rw [h0p] at hfold
    rw [h0r] at hfold
    rw [h0i] at hfold
    rw [h0t] at hfold
    simp only [Bool.false_or, oalt_none_left] at hfold
    have hd := dedupRepo_lookups (repoOf st repo) url
    have hppr : prMem (dedupData st) repo url = prMem st repo url := by
      unfold prMem
      rw [repoOf_dedupData, hd.1]
    have hrev : revVal (dedupData st) repo url
        = (if prMem st repo url then none else revVal st repo url) := by
      unfold revVal prMem
      rw [repoOf_dedupData, hd.2.1]
    have hiss : issMem (dedupData st) repo url
        = (issMem st repo url && !prMem st repo url && !(revVal st repo url).isSome) := by
      unfold issMem prMem revVal
      rw [repoOf_dedupData, hd.2.2.1]
      by_cases hp : (Smap.find? (repoOf st repo).pr_action url).isSome <;>
        by_cases hr : (Smap.find? (repoOf st repo).reviewed url).isSome <;>
        simp [hp, hr]
    have htit : titleVal (dedupData st) repo url = titleVal st repo url := by
      unfold titleVal
      rw [repoOf_dedupData, hd.2.2.2]
    refine ⟨?_, ?_, ?_, ?_⟩
    · rw [hppr, hfold.1]
    · rw [hrev, hfold.1, hfold.2.1]
    · rw [hiss, hfold.1, hfold.2.1, hfold.2.2.1]
    · rw [htit, hfold.2.2.2]

theorem findSome?_isSome_eq_any {α β : Type} (f : α → Option β) (l : List α) :
    (l.findSome? f).isSome = l.any (fun e => (f e).isSome) := by
  induction l with
  | nil => rfl
  | cons e l ih =>
    rw [findSome?_cons_oalt, List.any_cons, oalt_isSome, ih]

theorem refReaction_isSome (start end_ : Int) (repo url : String) (e : Event) :
    (refReaction start end_ repo url e).isSome = isReviewFor start end_ repo url e := by
  unfold refReaction isReviewFor
  cases hrv : e.payload.review with
  | none => simp
  | some review =>
    cases hpp : e.payload.pull_request with
    | none => simp
    | some pr =>
      simp only []
      by_cases hb : (inWindowB start end_ e && decide (e.repo.name = repo) &&
          decide (e.typ = "PullRequestReviewEvent") && decide (pr.html_url = url)) = true
      · rw [if_pos hb, hb]
        rfl
      · rw [if_neg hb, Bool.eq_false_iff.mpr hb]
        rfl

theorem refTitle_isSome_of_isOpened {start end_ : Int} {repo url : String} {e : Event}
    (h : isOpenedFor start end_ repo url e = true) :
    (refTitle start end_ repo url e).isSome = true := by
  unfold isOpenedFor at h
  cases hpp : e.payload.pull_request with
  | none => rw [hpp] at h; simp at h
  | some pr =>
    cases hpa : e.payload.action with
    | none => rw [hpp, hpa] at h; simp at h
    | some action =>
      rw [hpp, hpa] at h
      simp only [Bool.and_eq_true, decide_eq_true_eq] at h
      obtain ⟨⟨⟨hw, hrn⟩, ht⟩, ha, hu⟩ := h
      simp [refTitle, ht, hpp, hpa, hw, hrn, ha, hu]

theorem refTitle_isSome_of_isReview {start end_ : Int} {repo url : String} {e : Event}
    (h : isReviewFor start end_ repo url e = true) :
    (refTitle start end_ repo url e).isSome = true := by
  unfold isReviewFor at h
  cases hrv : e.payload.review with
  | none => rw [hrv] at h; simp at h
  | some review =>
    cases hpp : e.payload.pull_request with
    | none => rw [hrv, hpp] at h; simp at h
    | some pr =>
      rw [hrv, hpp] at h
      simp only [Bool.and_eq_true, decide_eq_true_eq] at h
      obtain ⟨⟨⟨hw, hrn⟩, ht⟩, hu⟩ := h
      have hne : ¬ e.typ = "PullRequestEvent" := by simp [ht]
      simp [refTitle, ht, hne, hrv, hpp, hw, hrn, hu]

theorem refTitle_isSome_of_isComment {start end_ : Int} {repo url : String} {e : Event}
    (h : isCommentFor start end_ repo url e = true) :
    (refTitle start end_ repo url e).isSome = true := by
  unfold isCommentFor at h
  cases hi : e.payload.issue with
  | none => rw [hi] at h; simp at h
  | some issue =>
    rw [hi] at h
    simp only [Bool.and_eq_true, decide_eq_true_eq] at h
    obtain ⟨⟨⟨hw, hrn⟩, ht⟩, hu⟩ := h
    have hne1 : ¬ e.typ = "PullRequestEvent" := by simp [ht]
    have hne2 : ¬ e.typ = "PullRequestReviewEvent" := by simp [ht]
    simp [refTitle, ht, hne1, hne2, hi, hw, hrn, hu]

theorem any_findSome?_isSome {α β : Type} {p : α → Bool} {f : α → Option β} {l : List α}
    (hpf : ∀ e, p e = true → (f e).isSome = true) (h : l.any p = true) :
    (l.findSome? f).isSome = true := by
  rw [findSome?_isSome_eq_any]
  rw [List.any_eq_true] at h ⊢
  obtain ⟨e, he, hpe⟩ := h
  exact ⟨e, he, hpf e hpe⟩

/-- C1: after `parse_events` processes any full event stream, each target URL
of a repository lands in exactly one of the three URL-keyed buckets, chosen by
the precedence opened > reviewed > commented regardless of event order: the
membership of each bucket is characterised by which event kinds touch the URL,
a URL in `pr_action` is absent from `reviewed` and `issues`, and a URL in
`reviewed` is absent from `issues`. -/
theorem parse_events_bucket_precedence (events : List Event) (start end_ : Int)
    (rep : RepoEventParseData) (h : parse_events events start end_ = .ok rep)
    (repo url : String) :
    prMem rep repo url = events.any (isOpenedFor start end_ repo url)
    ∧ (revVal rep repo url).isSome
      = (events.any (isReviewFor start end_ repo url)
          && !events.any (isOpenedFor start end_ repo url))
    ∧ issMem rep repo url
      = (events.any (isCommentFor start end_ repo url)
          && !events.any (isOpenedFor start end_ repo url)
          && !events.any (isReviewFor start end_ repo url))
    ∧ (prMem rep repo url = true → revVal rep repo url = none ∧ issMem rep repo url = false)
    ∧ ((revVal rep repo url).isSome = true → issMem rep repo url = false) := by
  obtain ⟨hp, hr, hi, ht⟩ := parse_events_lookup events start end_ rep h repo url
  have hrw : (events.findSome? (refReaction start end_ repo url)).isSome
      = events.any (isReviewFor start end_ repo url) := by
    rw [findSome?_isSome_eq_any]
    simp only [refReaction_isSome]
  have h2 : (revVal rep repo url).isSome
      = (events.any (isReviewFor start end_ repo url)
          && !events.any (isOpenedFor start end_ repo url)) := by
    rw [hr]
    by_cases ho : events.any (isOpenedFor start end_ repo url) = true <;> simp [ho, hrw]
  have h3 : issMem rep repo url
      = (events.any (isCommentFor start end_ repo url)
          && !events.any (isOpenedFor start end_ repo url)
          && !events.any (isReviewFor start end_ repo url)) := by
    rw [hi, hrw]
  refine ⟨hp, h2, h3, ?_, ?_⟩
  · intro hpm
    rw [hp] at hpm
    constructor
    · rw [hr, hpm]
      simp
    · rw [h3, hpm]
      simp
  · intro hrm
    rw [h2] at hrm
    rw [h3]
    rw [Bool.and_eq_true] at hrm
    obtain ⟨hrev, hno⟩ := hrm
    rw [hrev]
    simp

/-- C7: the title recorded for a URL, and (when no opened event subsumes the
URL) the reviewed reaction recorded for it, are the ones contributed by the
first matching event in input order (`List.findSome?` returns the first hit). -/
theorem parse_events_first_seen_wins (events : List Event) (start end_ : Int)
    (rep : RepoEventParseData) (h : parse_events events start end_ = .ok rep)
    (repo url : String) :
    titleVal rep repo url = events.findSome? (refTitle start end_ repo url)
    ∧ (events.any (isOpenedFor start end_ repo url) = false →
        revVal rep repo url = events.findSome? (refReaction start end_ repo url)) := by
  obtain ⟨hp, hr, hi, ht⟩ := parse_events_lookup events start end_ rep h repo url
  refine ⟨ht, ?_⟩
  intro ho
  rw [hr, ho]
  simp

/-- C10: every URL present in any of the three URL-keyed buckets of a
successful `parse_events` run has an entry in that repository's `titles`
mapping, so the renderer's empty-string fallback is never needed for its
output. -/
theorem parse_events_titles_total (events : List Event) (start end_ : Int)
    (rep : RepoEventParseData) (h : parse_events events start end_ = .ok rep)
    (repo url : String)
    (hmem : (prMem rep repo url || (revVal rep repo url).isSome
              || issMem rep repo url) = true) :
    (titleVal rep repo url).isSome = true := by
  obtain ⟨hp, hr, hi, ht⟩ := parse_events_lookup events start end_ rep h repo url
  rw [ht]
  rw [Bool.or_eq_true, Bool.or_eq_true] at hmem
  rcases hmem with hm | hm
  · rcases hm with hm' | hm'
    · rw [hp] at hm'
      exact any_findSome?_isSome (fun e he => refTitle_isSome_of_isOpened he) hm'
    · rw [hr] at hm'
      by_cases ho : events.any (isOpenedFor start end_ repo url) = true
      · exact any_findSome?_isSome (fun e he => refTitle_isSome_of_isOpened he) ho
      · rw [if_neg ho] at hm'
        rw [findSome?_isSome_eq_any] at hm'
        simp only [refReaction_isSome] at hm'
        exact any_findSome?_isSome (fun e he => refTitle_isSome_of_isReview he) hm'
  · rw [hi, Bool.and_eq_true, Bool.and_eq_true] at hm
    exact any_findSome?_isSome (fun e he => refTitle_isSome_of_isComment he) hm.1.1

theorem processEvent_error_of_malformed (start end_ : Int) (st : RepoEventParseData)
    (e : Event) (hw : ¬ end_ < e.created_at ∧ ¬ e.created_at < start)
    (hm : malformedShape e) :
    ∃ m, processEvent start end_ st e = .error m := by
  unfold processEvent
  rw [if_neg hw.1, if_neg hw.2]
  unfold classifyEvent
  rcases hm with ⟨ht, hx⟩ | ⟨ht, hx⟩ | ⟨ht, hx⟩
  · have hne : ¬ e.typ = "PushEvent" := by simp [ht]
    rw [if_neg hne, if_pos ht]
    rcases hx with hx | hx
    · rw [hx]
      exact ⟨_, rfl⟩
    · cases hpp : e.payload.pull_request with
      | none => exact ⟨_, rfl⟩
      | some pr => rw [hx]; exact ⟨_, rfl⟩
  · have hne1 : ¬ e.typ = "PushEvent" := by simp [ht]
    have hne2 : ¬ e.typ = "PullRequestEvent" := by simp [ht]
    rw [if_neg hne1, if_neg hne2, if_pos ht]
    rcases hx with hx | hx
    · rw [hx]
      exact ⟨_, rfl⟩
    · cases hrv : e.payload.review with
      | none => exact ⟨_, rfl⟩
      | some review => rw [hx]; exact ⟨_, rfl⟩
  · have hne1 : ¬ e.typ = "PushEvent" := by simp [ht]
    have hne2 : ¬ e.typ = "PullRequestEvent" := by simp [ht]
    have hne3 : ¬ e.typ = "PullRequestReviewEvent" := by simp [ht]
    rw [if_neg hne1, if_neg hne2, if_neg hne3, if_pos ht, hx]
    exact ⟨_, rfl⟩

theorem foldlM_error_of_mem (start end_ : Int) (events : List Event) (e : Event)
    (he : e ∈ events)
    (herr : ∀ st, ∃ m, processEvent start end_ st e = .error m) :
    ∀ st0, ∃ m, events.foldlM (processEvent start end_) st0 = .error m := by
  induction events with
  | nil => cases he
  | cons a l ih =>
    intro st0
    rw [List.foldlM_cons]
    rcases List.mem_cons.mp he with rfl | hmem
    · obtain ⟨m, hm⟩ := herr st0
      rw [hm]
      exact ⟨m, rfl⟩
    · cases hpe : processEvent start end_ st0 a with
      | error m => exact ⟨m, rfl⟩
      | ok st1 =>
        obtain ⟨m, hm⟩ := ih hmem st1
        exact ⟨m, hm⟩

/-- C2: an in-window event whose declared type requires a payload field that
is absent makes the whole `parse_events` run fail with an error (the event is
never silently skipped). -/
theorem parse_events_malformed_fatal (events : List Event) (start end_ : Int)
    (e : Event) (he : e ∈ events)
    (hw : ¬ end_ < e.created_at ∧ ¬ e.created_at < start)
    (hm : malformedShape e) :
    ∃ msg, parse_events events start end_ = .error msg := by
  obtain ⟨m, hm'⟩ := foldlM_error_of_mem start end_ events e he
    (fun st => processEvent_error_of_malformed start end_ st e hw hm) ⟨[], 0, 0⟩
  refine ⟨m, ?_⟩
  unfold parse_events
  rw [hm']
  rfl

theorem my_events_go_stop (pages : Nat → List Event) (user : String) (start : Int)
    (budget page : Nat) (r : List Event)
    (h : ((pages page).filter (qualifies user start)).isEmpty = true) :
    my_events_go pages user start budget page r
      = .ok (r ++ (pages page).filter (qualifies user start), page + 1) := by
  cases budget with
  | zero => rw [my_events_go.eq_1, if_pos h]
  | succ b => rw [my_events_go.eq_2, if_pos h]

theorem my_events_go_cont (pages : Nat → List Event) (user : String) (start : Int)
    (b page : Nat) (r : List Event)
    (h : ((pages page).filter (qualifies user start)).isEmpty = false) :
    my_events_go pages user start (b + 1) page r
      = my_events_go pages user start b (page + 1)
          (r ++ (pages page).filter (qualifies user start)) := by
  rw [my_events_go.eq_2, if_neg (by simp [h])]

theorem my_events_go_bail (pages : Nat → List Event) (user : String) (start : Int)
    (page : Nat) (r : List Event)
    (h : ((pages page).filter (qualifies user start)).isEmpty = false) :
    my_events_go pages user start 0 page r
      = .error ("Would exceed pagelimit " ++ toString pagelimit) := by
  rw [my_events_go.eq_1, if_neg (by simp [h])]

theorem my_events_go_sound (pages : Nat → List Event) (user : String) (start : Int) :
    ∀ (budget page : Nat) (r l : List Event) (n : Nat),
      my_events_go pages user start budget page r = .ok (l, n) →
      (∀ e ∈ l, e ∈ r ∨ qualifies user start e = true)
      ∧ (∀ e ∈ r, e ∈ l)
      ∧ (∀ e ∈ (pages page).filter (qualifies user start), e ∈ l) := by
  intro budget
  induction budget with
  | zero =>
    intro page r l n h
    by_cases hev : ((pages page).filter (qualifies user start)).isEmpty = true
    · rw [my_events_go_stop pages user start 0 page r hev] at h
      injection h with h
      rw [Prod.mk.injEq] at h
      obtain ⟨hl, hn⟩ := h
      subst hl
      refine ⟨?_, ?_, ?_⟩
      · intro e he
        rcases List.mem_append.mp he with he | he
        · exact Or.inl he
        · exact Or.inr (List.of_mem_filter he)
      · intro e he
        exact List.mem_append.mpr (Or.inl he)
      · intro e he
        exact List.mem_append.mpr (Or.inr he)
    · rw [my_events_go_bail pages user start page r (Bool.eq_false_iff.mpr hev)] at h
      cases h
  | succ b ih =>
    intro page r l n h
    by_cases hev : ((pages page).filter (qualifies user start)).isEmpty = true
    · rw [my_events_go_stop pages user start (b + 1) page r hev] at h
      injection h with h
      rw [Prod.mk.injEq] at h
      obtain ⟨hl, hn⟩ := h
      subst hl
      refine ⟨?_, ?_, ?_⟩
      · intro e he
        rcases List.mem_append.mp he with he | he
        · exact Or.inl he
        · exact Or.inr (List.of_mem_filter he)
      · intro e he
        exact List.mem_append.mpr (Or.inl he)
      · intro e he
        exact List.mem_append.mpr (Or.inr he)
    · rw [my_events_go_cont pages user start b page r (Bool.eq_false_iff.mpr hev)] at h
      obtain ⟨hsound, hsub, hpg⟩ := ih (page + 1) (r ++ (pages page).filter (qualifies user start)) l n h
      refine ⟨?_, ?_, ?_⟩
      · intro e he
        rcases hsound e he with hemem | hq
        · rcases List.mem_append.mp hemem with he' | he'
          · exact Or.inl he'
          · exact Or.inr (List.of_mem_filter he')
        · exact Or.inr hq
      · intro e he
        exact hsub e (List.mem_append.mpr (Or.inl he))
      · intro e he
        exact hsub e (List.mem_append.mpr (Or.inr he))

/-- C3 (amended): every event returned by `my_events` belongs to the requested
user and has `created_at` strictly greater than `start` (so an event with
`created_at` equal to `start` is excluded), and every first-page event of the
user with `created_at` strictly greater than `start` is returned. -/
theorem my_events_window_strict (pages : Nat → List Event) (user : String)
    (start : Int) (l : List Event) (n : Nat)
    (h : my_events pages user start = .ok (l, n)) :
    (∀ e ∈ l, e.actor.login = user ∧ start < e.created_at)
    ∧ (∀ e ∈ pages 0, e.actor.login = user → start < e.created_at → e ∈ l) := by
  unfold my_events at h
  obtain ⟨hsound, hsub, hpg⟩ :=
    my_events_go_sound pages user start (pagelimit + 1) 0 [] l n h
  constructor
  · intro e he
    rcases hsound e he with he' | hq
    · cases he'
    · unfold qualifies at hq
      rw [Bool.and_eq_true] at hq
      exact ⟨by simpa using hq.1, by simpa using hq.2⟩
  · intro e he hlogin hlt
    apply hpg
    rw [List.mem_filter]
    refine ⟨he, ?_⟩
    unfold qualifies
    rw [Bool.and_eq_true]
    exact ⟨by simpa using hlogin, by simpa using hlt⟩

theorem my_events_go_exhaust (pages : Nat → List Event) (user : String) (start : Int) :
    ∀ (budget page : Nat) (r : List Event),
      (∀ p, page ≤ p → p ≤ page + budget →
        ((pages p).filter (qualifies user start)).isEmpty = false) →
      my_events_go pages user start budget page r
        = .error ("Would exceed pagelimit " ++ toString pagelimit) := by
  intro budget
  induction budget with
  | zero =>
    intro page r h
    exact my_events_go_bail pages user start page r (h page le_rfl (by omega))
  | succ b ih =>
    intro page r h
    rw [my_events_go_cont pages user start b page r (h page le_rfl (by omega))]
    exact ih (page + 1) _ (fun p hp1 hp2 => h p (by omega) (by omega))

/-- C4: when every page up to and including index `pagelimit + 1` still
yields a qualifying event, the fetch loop fails with the
pagination-exhausted error instead of fetching further pages. -/
theorem my_events_pagelimit_exhausted (pages : Nat → List Event) (user : String)
    (start : Int)
    (h : ∀ p, p ≤ pagelimit + 1 →
      ((pages p).filter (qualifies user start)).isEmpty = false) :
    my_events pages user start
      = .error ("Would exceed pagelimit " ++ toString pagelimit) := by
  unfold my_events
  exact my_events_go_exhaust pages user start (pagelimit + 1) 0 []
    (fun p hp1 hp2 => h p (by omega))

/-- C5: the fetch loop stops exactly on the first page with zero qualifying
events: when pages 0 and 1 still contain qualifying events and page 2 (the
third page) is the first without any, exactly 3 page requests are made and
all accumulated qualifying events are returned. -/
theorem my_events_stops_on_empty_page (pages : Nat → List Event) (user : String)
    (start : Int)
    (h0 : ((pages 0).filter (qualifies user start)).isEmpty = false)
    (h1 : ((pages 1).filter (qualifies user start)).isEmpty = false)
    (h2 : ((pages 2).filter (qualifies user start)).isEmpty = true) :
    my_events pages user start
      = .ok ((pages 0).filter (qualifies user start)
              ++ (pages 1).filter (qualifies user start), 3) := by
  unfold my_events
  rw [show pagelimit + 1 = 5 + 1 from rfl]
  rw [my_events_go_cont pages user start 5 0 [] h0]
  rw [show (5 : Nat) = 4 + 1 from rfl]
  rw [my_events_go_cont pages user start 4 1 _ h1]
  rw [my_events_go_stop pages user start 4 2 _ h2]
  have hf2 : (pages 2).filter (qualifies user start) = [] := by simpa using h2
  rw [hf2]
  simp

/-- C6: the two-sided window checks of the `parse_events` loop body: an event
strictly after `end_` only increments the `after` counter, an event strictly
before `start` only increments the `before` counter, and an event exactly at
`start` or at `end_` falls through to the normal classification. -/
theorem processEvent_window_boundaries (start end_ : Int) (hwf : start ≤ end_)
    (st : RepoEventParseData) (e : Event) :
    (end_ < e.created_at →
      processEvent start end_ st e = .ok { st with after := st.after + 1 })
    ∧ (e.created_at < start →
      processEvent start end_ st e = .ok { st with before := st.before + 1 })
    ∧ ((e.created_at = start ∨ e.created_at = end_) →
      processEvent start end_ st e = classifyEvent st e) := by
  refine ⟨?_, ?_, ?_⟩
  · intro h1
    unfold processEvent
    rw [if_pos h1]
  · intro h2
    have hn1 : ¬ end_ < e.created_at := by omega
    unfold processEvent
    rw [if_neg hn1, if_pos h2]
  · intro hd
    have hn1 : ¬ end_ < e.created_at := by rcases hd with h | h <;> omega
    have hn2 : ¬ e.created_at < start := by rcases hd with h | h <;> omega
    unfold processEvent
    rw [if_neg hn1, if_neg hn2]

/-- C8 (amended): for a repository whose buckets are all empty and whose push
count is zero, the renderer emits exactly the repository heading line and no
section lines for it (the heading itself is printed unconditionally). -/
theorem renderRepo_empty_buckets (name : String) (re : RepoEvents)
    (hp : re.pr_action = []) (hr : re.reviewed = []) (hi : re.issues = [])
    (hpu : re.pushed = 0) :
    renderRepo (name, re) = ["### " ++ link ("https://github.com/" ++ name) name] := by
  simp [renderRepo, hp, hr, hi, hpu]

/-- C9: the window computation of `main`: the end is the target day
(`today - previous_day`) at the starting hour, and the start is 3 days
earlier when the target day is a Monday and 1 day earlier otherwise, also at
the starting hour. -/
theorem computeWindow_weekend_rollback (today : Int) (previous_day : Nat) :
    ((computeWindow today previous_day).2.day = today - previous_day)
    ∧ ((computeWindow today previous_day).2.hour = STARTING_HOUR)
    ∧ ((computeWindow today previous_day).1.hour = STARTING_HOUR)
    ∧ (weekdayOfDay (today - previous_day) = 0 →
        (computeWindow today previous_day).1.day = today - previous_day - 3)
    ∧ (weekdayOfDay (today - previous_day) ≠ 0 →
        (computeWindow today previous_day).1.day = today - previous_day - 1) := by
  unfold computeWindow
  refine ⟨rfl, rfl, rfl, ?_, ?_⟩
  · intro h
    simp [h]
  · intro h
    simp [h]

/-- C1 witness at a concrete stream (comment, review and opened event for the
same URL in reverse-chronological order). -/
theorem parse_events_bucket_precedence_witness :
    prMem repW "r" "hu" = evsW.any (isOpenedFor 0 10 "r" "hu")
    ∧ (revVal repW "r" "hu" = none ∧ issMem repW "r" "hu" = false) :=
  ⟨(parse_events_bucket_precedence evsW 0 10 repW (by decide) "r" "hu").1,
   (parse_events_bucket_precedence evsW 0 10 repW (by decide) "r" "hu").2.2.2.1
     (by decide)⟩

/-- C2 witness: a PullRequestEvent without `payload.pull_request` aborts the
run. -/
theorem parse_events_malformed_fatal_witness :
    ∃ msg, parse_events [badEv] 0 10 = .error msg :=
  parse_events_malformed_fatal [badEv] 0 10 badEv (List.mem_singleton.mpr rfl)
    (by decide) (Or.inl ⟨rfl, Or.inl rfl⟩)

/-- C3 counterexample: an event of the requested user with `created_at`
exactly equal to `start`, present on the first page, is not returned by
`my_events` (the claim says it is included). -/
theorem my_events_boundary_counterexample :
    evAtStart.actor.login = "u"
    ∧ evAtStart.created_at = (100 : Int)
    ∧ evAtStart ∈ pagesAtStart 0
    ∧ my_events pagesAtStart "u" 100 = .ok ([], 1) :=
  ⟨rfl, rfl, by decide, by decide⟩

/-- C3 (amended) witness: an event strictly after `start` is returned. -/
theorem my_events_window_strict_witness :
    (∀ e ∈ [evQual], e.actor.login = "u" ∧ (100 : Int) < e.created_at)
    ∧ (∀ e ∈ pagesOne 0, e.actor.login = "u" → (100 : Int) < e.created_at →
        e ∈ [evQual]) :=
  my_events_window_strict pagesOne "u" 100 [evQual] 2 (by decide)

/-- C4 witness: a source with a qualifying event on every page exhausts the
page ceiling. -/
theorem my_events_pagelimit_exhausted_witness :
    my_events pagesEvery "u" 100
      = .error ("Would exceed pagelimit " ++ toString pagelimit) :=
  my_events_pagelimit_exhausted pagesEvery "u" 100 (by decide)

/-- C5 witness: pages 0 and 1 hold qualifying events (page 0 also a
non-qualifying one), page 2 is empty: 3 requests, all qualifying events
returned. -/
theorem my_events_stops_on_empty_page_witness :
    my_events pagesThree "u" 100
      = .ok ((pagesThree 0).filter (qualifies "u" 100)
              ++ (pagesThree 1).filter (qualifies "u" 100), 3) :=
  my_events_stops_on_empty_page pagesThree "u" 100 (by decide) (by decide) (by decide)

/-- C6 witness: a too-new event increments `after`, a too-old one increments
`before`, an event at the window start is classified normally. -/
theorem processEvent_window_boundaries_witness :
    processEvent 0 10 ⟨[], 0, 0⟩ evLate = .ok ⟨[], 0, 1⟩
    ∧ processEvent 0 10 ⟨[], 0, 0⟩ evEarly = .ok ⟨[], 1, 0⟩
    ∧ processEvent 0 10 ⟨[], 0, 0⟩ evEdge = classifyEvent ⟨[], 0, 0⟩ evEdge :=
  ⟨(processEvent_window_boundaries 0 10 (by decide) ⟨[], 0, 0⟩ evLate).1 (by decide),
   (processEvent_window_boundaries 0 10 (by decide) ⟨[], 0, 0⟩ evEarly).2.1 (by decide),
   (processEvent_window_boundaries 0 10 (by decide) ⟨[], 0, 0⟩ evEdge).2.2 (Or.inl rfl)⟩

/-- C7 witness: the recorded title is the first-seen one (`"T3"` from the
comment event, the first in input order), and the reaction for a stream
without an opened event is the first review's. -/
theorem parse_events_first_seen_wins_witness :
    titleVal repW "r" "hu" = evsW.findSome? (refTitle 0 10 "r" "hu")
    ∧ revVal repR "r" "hu" = evsR.findSome? (refReaction 0 10 "r" "hu") :=
  ⟨(parse_events_first_seen_wins evsW 0 10 repW (by decide) "r" "hu").1,
   (parse_events_first_seen_wins evsR 0 10 repR (by decide) "r" "hu").2 (by decide)⟩

/-- C8 counterexample: a repository entry with all-empty buckets — created by
an in-window event of an unclassified type — still makes the renderer print
the repository heading line, so the repository produces output. -/
theorem print_events_empty_repo_counterexample :
    parse_events [evFork] 0 10 = .ok repF
    ∧ print_events repF
      = ["<!-- before: 0 after: 0 -->", "### [r](https://github.com/r)"]
    ∧ print_events repF ≠ ["<!-- before: 0 after: 0 -->"] :=
  ⟨by decide, by decide, by decide⟩

/-- C8 (amended) witness: the default (all-empty) repository state renders as
exactly its heading line. -/
theorem renderRepo_empty_buckets_witness :
    renderRepo ("r", ({} : RepoEvents))
      = ["### " ++ link ("https://github.com/" ++ "r") "r"] :=
  renderRepo_empty_buckets "r" {} rfl rfl rfl rfl

/-- C9 witness: day 4 (1970-01-05) is a Monday, so the window starts 3 days
earlier; day 5 is a Tuesday, so it starts 1 day earlier. -/
theorem computeWindow_weekend_rollback_witness :
    (computeWindow 4 0).1.day = 4 - ((0 : Nat) : Int) - 3
    ∧ (computeWindow 5 0).1.day = 5 - ((0 : Nat) : Int) - 1 :=
  ⟨(computeWindow_weekend_rollback 4 0).2.2.2.1 (by decide),
   (computeWindow_weekend_rollback 5 0).2.2.2.2 (by decide)⟩

/-- C10 witness: the URL recorded in a bucket of the concrete run has a
title. -/
theorem parse_events_titles_total_witness :
    (titleVal repW "r" "hu").isSome = true :=
  parse_events_titles_total evsW 0 10 repW (by decide) "r" "hu" (by decide)
